import Mathlib

/-!
Shallow embedding of the two C modules of the repository:
`src/10_c_interop/n087_custom_c/c_src/mathlib.c` and
`src/10_c_interop/n088_translate_c/c_src/sample.c`.

Conventions of the embedding:
* a C `int32_t` value is an `Int`; arithmetic that the spec describes as
  32-bit wraparound is made explicit with `wrap32`;
* a C pointer that may be null is an `Option`; `none` is the null pointer;
* a C byte buffer (`char*` contents) is a `List Nat` of byte values, the
  terminator being the byte `0`; an `int32_t` array is a `List Int`;
* an in-place mutating C function returns the final contents of the buffer
  it mutates; reading or writing through a null pointer has no defined
  result, which the embedding renders as `none`.
-/

namespace CLib

/-- Two's-complement wraparound of an unbounded integer into the signed
32-bit range `[-2147483648, 2147483647]`; `2147483648 = 2^31` and
`4294967296 = 2^32`. -/
def wrap32 (z : Int) : Int := (z + 2147483648) % 4294967296 - 2147483648

/-- Embedding of `mathlib.c` line 7: `int32_t add(int32_t a, int32_t b)`
returns `a + b` in 32-bit signed arithmetic. -/
def add (a b : Int) : Int := wrap32 (a + b)

/-- Embedding of `mathlib.c` line 11: `int32_t multiply(int32_t a, int32_t b)`
returns `a * b` in 32-bit signed arithmetic. -/
def multiply (a b : Int) : Int := wrap32 (a * b)

/-- Loop of `factorial` in `mathlib.c`:
`for (int32_t i = 2; i <= n; i++) { result *= i; }` with the running
product wrapped to 32 bits at every step. -/
def factLoop (result i n : Int) : Int :=
  if h : i ≤ n then factLoop (wrap32 (result * i)) (i + 1) n else result
termination_by (n + 1 - i).toNat
decreasing_by omega

/-- Embedding of `mathlib.c` line 15: `int32_t factorial(int32_t n)`;
returns 1 when `n <= 1`, otherwise the iterative wrapped product `2 * … * n`. -/
def factorial (n : Int) : Int := if n ≤ 1 then 1 else factLoop 1 2 n

/-- Specification-side exact product of the integers `i, i+1, …, n`
(1 when `i > n`); used to state what the factorial loop computes before
wrapping. -/
def prodFrom (i n : Int) : Int :=
  if h : i ≤ n then i * prodFrom (i + 1) n else 1
termination_by (n + 1 - i).toNat
decreasing_by omega

/-- Loop of `array_sum` in `mathlib.c`:
`for (size_t i = 0; i < len; i++) { sum += arr[i]; }`. -/
def asLoop (arr : List Int) (len i : Nat) (sum : Int) : Int :=
  if h : i < len then asLoop arr len (i + 1) (wrap32 (sum + arr.getD i 0)) else sum
termination_by len - i
decreasing_by omega

/-- Embedding of `mathlib.c` line 24: `int32_t array_sum(const int32_t* arr, size_t len)`. -/
def array_sum (arr : List Int) (len : Nat) : Int := asLoop arr len 0 0

/-- Loop of `array_double` in `mathlib.c`:
`for (size_t i = 0; i < len; i++) { arr[i] *= 2; }`. -/
def adLoop (arr : List Int) (len i : Nat) : List Int :=
  if h : i < len then adLoop (arr.set i (wrap32 (arr.getD i 0 * 2))) len (i + 1) else arr
termination_by len - i
decreasing_by omega

/-- Embedding of `mathlib.c` line 33: `void array_double(int32_t* arr, size_t len)`;
returns the final contents of the mutated buffer. -/
def array_double (arr : List Int) (len : Nat) : List Int := adLoop arr len 0

/-- Terminator scan shared by `strlen` (used in `reverse_string`) and the
`while (str[len]) len++;` loop of `string_length` in `sample.c`: the number
of bytes before the first `0` byte. -/
def cstrlen : List Nat → Nat
  | [] => 0
  | b :: rest => if b = 0 then 0 else cstrlen rest + 1

/-- Loop of `count_chars` in `mathlib.c`:
`while (*str) { if (*str == target) count++; str++; }`. -/
def ccLoop : List Nat → Nat → Nat
  | [], _ => 0
  | b :: rest, t => if b = 0 then 0 else (if b = t then 1 else 0) + ccLoop rest t

/-- Embedding of `mathlib.c` line 40: `size_t count_chars(const char* str, char target)`.
The function has no null guard: it dereferences `str` at once, so on a null
pointer it has no defined result (`none`). -/
def count_chars (str : Option (List Nat)) (target : Nat) : Option Nat :=
  match str with
  | none => none
  | some s => some (ccLoop s target)

/-- Swap loop of `reverse_string` in `mathlib.c`:
`for (size_t i = 0; i < len / 2; i++)` swapping `str[i]` and `str[len - 1 - i]`. -/
def swapLoop (s : List Nat) (len i : Nat) : List Nat :=
  if h : i < len / 2 then
    swapLoop ((s.set i (s.getD (len - 1 - i) 0)).set (len - 1 - i) (s.getD i 0)) len (i + 1)
  else s
termination_by len / 2 - i
decreasing_by omega

/-- Embedding of `mathlib.c` line 49: `void reverse_string(char* str)`;
computes `len = strlen(str)` then swaps symmetrically around the midpoint;
returns the final contents of the buffer. -/
def reverse_string (str : List Nat) : List Nat := swapLoop str (cstrlen str) 0

/-- Embedding of the `Point` struct of `mathlib.h`: two `int32_t` fields. -/
structure Point where
  x : Int
  y : Int
deriving DecidableEq

/-- Embedding of `mathlib.c` line 59: `Point point_add(Point a, Point b)`,
component-wise 32-bit sum returned by value. -/
def point_add (a b : Point) : Point := ⟨wrap32 (a.x + b.x), wrap32 (a.y + b.y)⟩

/-- Embedding of `mathlib.c` line 71: `int32_t apply_operation(int32_t a, int32_t b, BinaryOp op)`;
the body is `return op(a, b);` with no null check, so a null `op` gives no
defined result (`none`). -/
def apply_operation (a b : Int) (op : Option (Int → Int → Int)) : Option Int :=
  match op with
  | some f => some (f a b)
  | none => none

/-- Embedding of `sample.c` line 7: `int32_t add_numbers(int32_t a, int32_t b)`. -/
def add_numbers (a b : Int) : Int := wrap32 (a + b)

/-- Embedding of `sample.c` line 11: `int32_t multiply_numbers(int32_t a, int32_t b)`. -/
def multiply_numbers (a b : Int) : Int := wrap32 (a * b)

/-- Loop of `sum_array` in `sample.c`, textually the same loop as `array_sum`. -/
def ssLoop (arr : List Int) (len i : Nat) (sum : Int) : Int :=
  if h : i < len then ssLoop arr len (i + 1) (wrap32 (sum + arr.getD i 0)) else sum
termination_by len - i
decreasing_by omega

/-- Embedding of `sample.c` line 16: `int32_t sum_array(const int32_t* arr, size_t len)`. -/
def sum_array (arr : List Int) (len : Nat) : Int := ssLoop arr len 0 0

/-- Loop of `double_array` in `sample.c`, textually the same loop as `array_double`. -/
def daLoop (arr : List Int) (len i : Nat) : List Int :=
  if h : i < len then daLoop (arr.set i (wrap32 (arr.getD i 0 * 2))) len (i + 1) else arr
termination_by len - i
decreasing_by omega

/-- Embedding of `sample.c` line 24: `void double_array(int32_t* arr, size_t len)`. -/
def double_array (arr : List Int) (len : Nat) : List Int := daLoop arr len 0

/-- Embedding of the `Vec2` struct of `sample.h`: two `int32_t` fields. -/
structure Vec2 where
  x : Int
  y : Int
deriving DecidableEq

/-- Embedding of `sample.c` line 31: `Vec2 vec2_add(Vec2 a, Vec2 b)`,
component-wise 32-bit sum returned by value. -/
def vec2_add (a b : Vec2) : Vec2 := ⟨wrap32 (a.x + b.x), wrap32 (a.y + b.y)⟩

/-- Embedding of `sample.c` line 44: `size_t string_length(const char* str)`;
returns 0 on a null pointer (explicit guard `if (!str) return 0;`),
otherwise scans to the first terminator. -/
def string_length (str : Option (List Nat)) : Nat :=
  match str with
  | none => 0
  | some s => cstrlen s

/-- Copy loop of `string_copy` in `sample.c`:
`for (i = 0; i < max_len - 1 && src[i]; i++) { dest[i] = src[i]; }`;
returns the buffer after the loop together with the final value of `i`. -/
def scLoop (dest src : List Nat) (m i : Nat) : List Nat × Nat :=
  if h : i < m ∧ src.getD i 0 ≠ 0 then
    scLoop (dest.set i (src.getD i 0)) src m (i + 1)
  else (dest, i)
termination_by m - i
decreasing_by omega

/-- Embedding of `sample.c` line 51: `void string_copy(char* dest, const char* src, size_t max_len)`;
returns immediately (buffer unchanged) when `dest` or `src` is null or
`max_len = 0`; otherwise runs the bounded copy loop and writes the
terminator `dest[i] = 0` at the final loop index. -/
def string_copy (dest src : Option (List Nat)) (max_len : Nat) : Option (List Nat) :=
  match dest, src with
  | some d, some s =>
      if max_len = 0 then some d
      else
        let r := scLoop d s (max_len - 1) 0
        some (r.1.set r.2 0)
  | d, _ => d

/-- Embedding of `sample.c` line 61: `int32_t apply_op(int32_t a, int32_t b, BinaryOp op)`;
`if (!op) return 0; return op(a, b);`. -/
def apply_op (a b : Int) (op : Option (Int → Int → Int)) : Int :=
  match op with
  | none => 0
  | some f => f a b

/-! Basic facts about `wrap32`. -/

lemma wrap32_emod (z : Int) : wrap32 z % 4294967296 = z % 4294967296 := by
  unfold wrap32; omega

lemma wrap32_lb (z : Int) : -2147483648 ≤ wrap32 z := by
  unfold wrap32; omega

lemma wrap32_ub (z : Int) : wrap32 z < 2147483648 := by
  unfold wrap32; omega

lemma wrap32_congr {a b : Int} (hab : a % 4294967296 = b % 4294967296) :
    wrap32 a = wrap32 b := by
  unfold wrap32; omega

lemma wrap32_mul_left (x y : Int) : wrap32 (wrap32 x * y) = wrap32 (x * y) :=
  wrap32_congr (Int.ModEq.mul_right y (wrap32_emod x))

lemma wrap32_one : wrap32 1 = 1 := by decide

/-! Facts about the terminator scan. -/

lemma cstrlen_eq_takeWhile (s : List Nat) :
    cstrlen s = (s.takeWhile (fun b => b != 0)).length := by
  induction s with
  | nil => rfl
  | cons b rest ih =>
      by_cases hb : b = 0
      · simp [cstrlen, hb, List.takeWhile_cons]
      · simp [cstrlen, hb, List.takeWhile_cons, ih]

lemma cstrlen_le_length (s : List Nat) : cstrlen s ≤ s.length := by
  rw [cstrlen_eq_takeWhile]
  simpa using (List.takeWhile_sublist _).length_le

lemma getD_eq_of_lt {α : Type} (l : List α) (d : α) (k : Nat) (h : k < l.length) :
    l.getD k d = l[k] := by
  rw [List.getD_eq_getElem?_getD, List.getElem?_eq_getElem h, Option.getD_some]

/-! Facts about the array-doubling loop. -/

lemma adLoop_length (arr : List Int) (len i : Nat) : (adLoop arr len i).length = arr.length := by
  by_cases h : i < len
  · rw [adLoop, dif_pos h, adLoop_length, List.length_set]
  · rw [adLoop, dif_neg h]
termination_by len - i
decreasing_by omega

lemma adLoop_getD (arr : List Int) (len i : Nat) (hlen : len ≤ arr.length) (k : Nat) :
    (adLoop arr len i).getD k 0 =
      if i ≤ k ∧ k < len then wrap32 (arr.getD k 0 * 2) else arr.getD k 0 := by
  by_cases h : i < len
  · rw [adLoop, dif_pos h,
      adLoop_getD (arr.set i (wrap32 (arr.getD i 0 * 2))) len (i + 1) (by simpa using hlen) k]
    by_cases hk : k = i
    · subst hk
      rw [if_neg (by omega), if_pos (by omega)]
      rw [List.getD_eq_getElem?_getD, List.getElem?_set, if_pos rfl, if_pos (by omega)]
      rfl
    · have harr : (arr.set i (wrap32 (arr.getD i 0 * 2))).getD k 0 = arr.getD k 0 := by
        rw [List.getD_eq_getElem?_getD, List.getElem?_set, if_neg (fun he => hk he.symm),
          ← List.getD_eq_getElem?_getD]
      rw [harr]
      by_cases hik : i + 1 ≤ k ∧ k < len
      · rw [if_pos hik, if_pos (by omega)]
      · rw [if_neg hik, if_neg (by omega)]
  · rw [adLoop, dif_neg h, if_neg (by omega)]
termination_by len - i
decreasing_by omega

lemma array_double_map (arr : List Int) :
    array_double arr arr.length = arr.map (fun x => wrap32 (x * 2)) := by
  apply List.ext_getElem
  · rw [array_double, adLoop_length, List.length_map]
  · intro k hk1 hk2
    have hk1' : k < (adLoop arr arr.length 0).length := hk1
    have hkarr : k < arr.length := by rwa [adLoop_length] at hk1'
    have h := adLoop_getD arr arr.length 0 le_rfl k
    rw [if_pos (by omega)] at h
    calc (array_double arr arr.length)[k]
        = (adLoop arr arr.length 0).getD k 0 := (getD_eq_of_lt _ 0 k hk1').symm
      _ = wrap32 (arr.getD k 0 * 2) := h
      _ = wrap32 (arr[k] * 2) := by rw [getD_eq_of_lt arr 0 k hkarr]
      _ = (arr.map (fun x => wrap32 (x * 2)))[k] := by rw [List.getElem_map]

/-! Facts about the factorial loop. -/

lemma prodFrom_of_le (i n : Int) (h : i ≤ n) : prodFrom i n = i * prodFrom (i + 1) n := by
  conv_lhs => rw [prodFrom]
  exact dif_pos h

lemma prodFrom_of_gt (i n : Int) (h : ¬ i ≤ n) : prodFrom i n = 1 := by
  conv_lhs => rw [prodFrom]
  exact dif_neg h

lemma factLoop_wrap (r i n : Int) : factLoop (wrap32 r) i n = wrap32 (r * prodFrom i n) := by
  by_cases h : i ≤ n
  · rw [factLoop, dif_pos h, wrap32_mul_left, factLoop_wrap (r * i) (i + 1) n]
    rw [prodFrom_of_le i n h]
    congr 1
    ring
  · rw [factLoop, dif_neg h, prodFrom_of_gt i n h, mul_one]
termination_by (n + 1 - i).toNat
decreasing_by omega

lemma prodFrom_succ (i n : Int) (h : i ≤ n + 1) :
    prodFrom i (n + 1) = prodFrom i n * (n + 1) := by
  by_cases hin : i ≤ n
  · rw [prodFrom_of_le i (n + 1) h, prodFrom_succ (i + 1) n (by omega),
      prodFrom_of_le i n hin]
    ring
  · have hi : i = n + 1 := by omega
    subst hi
    rw [prodFrom_of_le (n + 1) (n + 1) le_rfl, prodFrom_of_gt (n + 1 + 1) (n + 1) (by omega),
      prodFrom_of_gt (n + 1) n hin]
    ring
termination_by (n + 1 - i).toNat
decreasing_by omega

lemma prodFrom_two_factorial (m : Nat) (hm : 1 ≤ m) :
    prodFrom 2 (m : Int) = (Nat.factorial m : Int) := by
  induction m with
  | zero => omega
  | succ k ih =>
      by_cases hk : 1 ≤ k
      · have hcast : ((k + 1 : Nat) : Int) = (k : Int) + 1 := by push_cast; ring
        rw [hcast, prodFrom_succ 2 k (by omega), ih hk, Nat.factorial_succ]
        push_cast
        ring
      · have hk0 : k = 0 := by omega
        subst hk0
        rw [prodFrom_of_gt 2 ((0 + 1 : Nat) : Int) (by norm_num)]
        norm_num [Nat.factorial]

/-! Facts about the swap loop of `reverse_string`. -/

lemma swapLoop_length (s : List Nat) (len i : Nat) : (swapLoop s len i).length = s.length := by
  by_cases h : i < len / 2
  · rw [swapLoop, dif_pos h, swapLoop_length]
    simp
  · rw [swapLoop, dif_neg h]
termination_by len / 2 - i
decreasing_by omega

lemma swapLoop_getD (s : List Nat) (len i : Nat) (hlen : len ≤ s.length) (k : Nat) :
    (swapLoop s len i).getD k 0 =
      if i ≤ k ∧ k < len - i then s.getD (len - 1 - k) 0 else s.getD k 0 := by
  by_cases h : i < len / 2
  · rw [swapLoop, dif_pos h]
    have hij : i < len - 1 - i := by omega
    have hjlen : len - 1 - i < s.length := by omega
    have hilen : i < s.length := by omega
    have hlen2 :
        len ≤ ((s.set i (s.getD (len - 1 - i) 0)).set (len - 1 - i) (s.getD i 0)).length := by
      simpa using hlen
    rw [swapLoop_getD ((s.set i (s.getD (len - 1 - i) 0)).set (len - 1 - i) (s.getD i 0))
      len (i + 1) hlen2 k]
    have hget : ∀ t : Nat,
        ((s.set i (s.getD (len - 1 - i) 0)).set (len - 1 - i) (s.getD i 0)).getD t 0 =
          if t = len - 1 - i then s.getD i 0
          else if t = i then s.getD (len - 1 - i) 0
          else s.getD t 0 := by
      intro t
      by_cases htj : t = len - 1 - i
      · subst htj
        rw [List.getD_eq_getElem?_getD, List.getElem?_set, if_pos rfl,
          if_pos (by simpa using hjlen), if_pos rfl]
        rfl
      · by_cases hti : t = i
        · subst hti
          rw [List.getD_eq_getElem?_getD, List.getElem?_set, if_neg (fun hh => htj hh.symm),
            List.getElem?_set, if_pos rfl, if_pos hilen, if_neg htj, if_pos rfl]
          rfl
        · rw [List.getD_eq_getElem?_getD, List.getElem?_set, if_neg (fun hh => htj hh.symm),
            List.getElem?_set, if_neg (fun hh => hti hh.symm), ← List.getD_eq_getElem?_getD,
            if_neg htj, if_neg hti]
    by_cases hk_i : k = i
    · subst hk_i
      rw [if_neg (by omega), if_pos (by omega : k ≤ k ∧ k < len - k), hget k,
        if_neg (by omega), if_pos rfl]
    · by_cases hk_j : k = len - 1 - i
      · rw [if_neg (by omega), if_pos (by omega : i ≤ k ∧ k < len - i), hget k, if_pos hk_j]
        congr 1
        omega
      · by_cases hk_mid : i + 1 ≤ k ∧ k < len - (i + 1)
        · rw [if_pos hk_mid, if_pos (by omega : i ≤ k ∧ k < len - i), hget (len - 1 - k),
            if_neg (by omega), if_neg (by omega)]
        · rw [if_neg hk_mid, if_neg (by omega : ¬(i ≤ k ∧ k < len - i)), hget k,
            if_neg hk_j, if_neg hk_i]
  · rw [swapLoop, dif_neg h]
    by_cases hc : i ≤ k ∧ k < len - i
    · have hk : len - 1 - k = k := by omega
      rw [if_pos hc, hk]
    · rw [if_neg hc]
termination_by len / 2 - i
decreasing_by omega

lemma reverse_string_eq (s : List Nat) :
    reverse_string s = (s.take (cstrlen s)).reverse ++ s.drop (cstrlen s) := by
  have hLle : cstrlen s ≤ s.length := cstrlen_le_length s
  rw [reverse_string]
  apply List.ext_getElem
  · rw [swapLoop_length]
    simp only [List.length_append, List.length_reverse, List.length_take, List.length_drop]
    omega
  · intro k hk1 hk2
    have hks : k < s.length := by rwa [swapLoop_length] at hk1
    have hl := swapLoop_getD s (cstrlen s) 0 hLle k
    rw [getD_eq_of_lt _ 0 k hk1] at hl
    rw [hl]
    by_cases hcase : k < cstrlen s
    · rw [if_pos (by omega)]
      have hkrev : k < (s.take (cstrlen s)).reverse.length := by
        simp only [List.length_reverse, List.length_take]
        omega
      rw [List.getElem_append_left hkrev, List.getElem_reverse]
      rw [getD_eq_of_lt s 0 (cstrlen s - 1 - k) (by omega)]
      rw [List.getElem_take]
      congr 1
      simp only [List.length_take]
      omega
    · rw [if_neg (by omega)]
      have hklen : (s.take (cstrlen s)).reverse.length ≤ k := by
        simp only [List.length_reverse, List.length_take]
        omega
      rw [List.getElem_append_right hklen, List.getElem_drop]
      rw [getD_eq_of_lt s 0 k hks]
      congr 1
      simp only [List.length_reverse, List.length_take]
      omega

lemma takeWhile_eq_take_cstrlen : ∀ s : List Nat,
    s.takeWhile (fun b => b != 0) = s.take (cstrlen s)
  | [] => rfl
  | b :: rest => by
      by_cases hb : b = 0
      · simp [List.takeWhile_cons, hb, cstrlen]
      · simp [List.takeWhile_cons, hb, cstrlen, takeWhile_eq_take_cstrlen rest]

lemma mem_take_cstrlen_ne_zero (s : List Nat) (x : Nat) (hx : x ∈ s.take (cstrlen s)) :
    x ≠ 0 := by
  rw [← takeWhile_eq_take_cstrlen] at hx
  simpa using List.mem_takeWhile_imp hx

lemma drop_cstrlen_head (s : List Nat) :
    s.drop (cstrlen s) = [] ∨ (s.drop (cstrlen s)).getD 0 0 = 0 := by
  induction s with
  | nil => exact Or.inl rfl
  | cons b rest ih =>
      by_cases hb : b = 0
      · right
        simp [cstrlen, hb]
      · simpa [cstrlen, hb] using ih

lemma cstrlen_append (A B : List Nat) (hA : ∀ x ∈ A, x ≠ 0)
    (hB : B = [] ∨ B.getD 0 0 = 0) : cstrlen (A ++ B) = A.length := by
  induction A with
  | nil =>
      rcases hB with h | h
      · simp [h, cstrlen]
      · cases B with
        | nil => rfl
        | cons b rest =>
            simp only [List.getD_cons_zero] at h
            simp [cstrlen, h]
  | cons a A ih =>
      have ha : a ≠ 0 := hA a (by simp)
      simp [cstrlen, ha, ih (fun x hx => hA x (by simp [hx]))]

/-! Facts about the copy loop of `string_copy`. -/

lemma scLoop_snd_ge (d s : List Nat) (m i : Nat) : i ≤ (scLoop d s m i).2 := by
  by_cases h : i < m ∧ s.getD i 0 ≠ 0
  · rw [scLoop, dif_pos h]
    have := scLoop_snd_ge (d.set i (s.getD i 0)) s m (i + 1)
    omega
  · rw [scLoop, dif_neg h]
termination_by m - i
decreasing_by omega

lemma scLoop_snd (d s : List Nat) (m i : Nat) (hi : i ≤ m) :
    (scLoop d s m i).2 = min m (i + cstrlen (s.drop i)) := by
  by_cases h : i < m ∧ s.getD i 0 ≠ 0
  · rw [scLoop, dif_pos h, scLoop_snd (d.set i (s.getD i 0)) s m (i + 1) (by omega)]
    have hi_lt : i < s.length := by
      by_contra hc
      have : s.getD i 0 = 0 := by
        rw [List.getD_eq_getElem?_getD, List.getElem?_eq_none (by omega)]
        rfl
      exact h.2 this
    have hdrop : s.drop i = s.getD i 0 :: s.drop (i + 1) := by
      rw [List.drop_eq_getElem_cons hi_lt, getD_eq_of_lt s 0 i hi_lt]
    rw [hdrop, cstrlen, if_neg h.2]
    omega
  · rw [scLoop, dif_neg h]
    rcases not_and_or.mp h with h1 | h2
    · have him : i = m := by omega
      omega
    · have h2' : s.getD i 0 = 0 := not_not.mp h2
      have hz : cstrlen (s.drop i) = 0 := by
        cases hd : s.drop i with
        | nil => rfl
        | cons b rest =>
            have hi_lt : i < s.length := by
              by_contra hc
              rw [List.drop_eq_nil_of_le (by omega)] at hd
              exact List.noConfusion hd
            have := List.drop_eq_getElem_cons hi_lt
            rw [hd] at this
            have hb : b = s[i] := (List.cons.injEq _ _ _ _ ▸ this).1
            rw [← getD_eq_of_lt s 0 i hi_lt, h2'] at hb
            rw [cstrlen, if_pos hb]
      omega
termination_by m - i
decreasing_by omega

lemma scLoop_fst_length (d s : List Nat) (m i : Nat) :
    (scLoop d s m i).1.length = d.length := by
  by_cases h : i < m ∧ s.getD i 0 ≠ 0
  · rw [scLoop, dif_pos h, scLoop_fst_length]
    simp
  · rw [scLoop, dif_neg h]
termination_by m - i
decreasing_by omega

lemma scLoop_fst_getD (d s : List Nat) (m i : Nat) (k : Nat) (hk : k < d.length) :
    (scLoop d s m i).1.getD k 0 =
      if i ≤ k ∧ k < (scLoop d s m i).2 then s.getD k 0 else d.getD k 0 := by
  by_cases h : i < m ∧ s.getD i 0 ≠ 0
  · rw [scLoop, dif_pos h]
    rw [scLoop_fst_getD (d.set i (s.getD i 0)) s m (i + 1) k (by simpa using hk)]
    by_cases hki : k = i
    · subst hki
      have hge := scLoop_snd_ge (d.set k (s.getD k 0)) s m (k + 1)
      rw [if_neg (by omega), if_pos (by omega)]
      rw [List.getD_eq_getElem?_getD, List.getElem?_set, if_pos rfl, if_pos hk]
      rfl
    · have hset : (d.set i (s.getD i 0)).getD k 0 = d.getD k 0 := by
        rw [List.getD_eq_getElem?_getD, List.getElem?_set, if_neg (fun hh => hki hh.symm),
          ← List.getD_eq_getElem?_getD]
      rw [hset]
      by_cases hc : i + 1 ≤ k ∧ k < (scLoop (d.set i (s.getD i 0)) s m (i + 1)).2
      · rw [if_pos hc, if_pos (by omega)]
      · rw [if_neg hc, if_neg (by omega)]
  · rw [scLoop, dif_neg h]
    rw [if_neg (by omega)]
termination_by m - i
decreasing_by omega

lemma string_copy_some (d s : List Nat) (m : Nat) (hm : m ≠ 0) :
    string_copy (some d) (some s) m =
      some ((scLoop d s (m - 1) 0).1.set ((scLoop d s (m - 1) 0).2) 0) := by
  show (if m = 0 then some d else
    some ((scLoop d s (m - 1) 0).1.set ((scLoop d s (m - 1) 0).2) 0)) = _
  rw [if_neg hm]

lemma set_scLoop_eq_take_append (d s : List Nat) (m1 n : Nat)
    (hn : (scLoop d s m1 0).2 = n) (hns : n ≤ cstrlen s) (hcap : n + 1 ≤ d.length) :
    (scLoop d s m1 0).1.set n 0 = s.take n ++ 0 :: d.drop (n + 1) := by
  have hsn : cstrlen s ≤ s.length := cstrlen_le_length s
  apply List.ext_getElem
  · rw [List.length_set, scLoop_fst_length]
    simp only [List.length_append, List.length_take, List.length_cons, List.length_drop]
    omega
  · intro k hk1 hk2
    have hkd : k < d.length := by rwa [List.length_set, scLoop_fst_length] at hk1
    rw [← getD_eq_of_lt _ 0 k hk1, ← getD_eq_of_lt _ 0 k hk2]
    by_cases hkn : k = n
    · subst hkn
      rw [List.getD_eq_getElem?_getD, List.getElem?_set, if_pos rfl,
        if_pos (by rw [scLoop_fst_length]; omega), Option.getD_some]
      rw [List.getD_append_right _ _ _ _ (by simp only [List.length_take]; omega)]
      have he : k - (s.take k).length = 0 := by
        simp only [List.length_take]
        omega
      rw [he, List.getD_cons_zero]
    · rw [List.getD_eq_getElem?_getD, List.getElem?_set, if_neg (fun hh => hkn hh.symm),
        ← List.getD_eq_getElem?_getD]
      rw [scLoop_fst_getD d s m1 0 k hkd, hn]
      by_cases hlt : k < n
      · rw [if_pos (by omega)]
        rw [List.getD_append _ _ _ _ (by simp only [List.length_take]; omega)]
        rw [getD_eq_of_lt (s.take n) 0 k (by simp only [List.length_take]; omega),
          List.getElem_take, getD_eq_of_lt s 0 k (by omega)]
      · rw [if_neg (by omega)]
        rw [List.getD_append_right _ _ _ _ (by simp only [List.length_take]; omega)]
        have hpos : k - (s.take n).length = (k - n - 1) + 1 := by
          simp only [List.length_take]
          omega
        rw [hpos, List.getD_cons_succ,
          List.getD_eq_getElem?_getD (d.drop (n + 1)) (k - n - 1) 0, List.getElem?_drop,
          ← List.getD_eq_getElem?_getD]
        congr 1
        omega

lemma append_getD_high (s d : List Nat) (n j : Nat) (hj : n + 1 ≤ j) (hn : n ≤ s.length) :
    (s.take n ++ 0 :: d.drop (n + 1)).getD j 0 = d.getD j 0 := by
  rw [List.getD_append_right _ _ _ _ (by simp only [List.length_take]; omega)]
  have hpos : j - (s.take n).length = (j - n - 1) + 1 := by
    simp only [List.length_take]
    omega
  rw [hpos, List.getD_cons_succ,
    List.getD_eq_getElem?_getD (d.drop (n + 1)) (j - n - 1) 0, List.getElem?_drop,
    ← List.getD_eq_getElem?_getD]
  congr 1
  omega

/-- C5: for all 32-bit signed integers `a`, `b`, `add a b` is congruent to
`a + b` modulo `2^32` and lies in the signed 32-bit range (two's-complement
wraparound), and `multiply a b` likewise for `a * b`; both functions are
total, so no input is rejected, trapped on, or adjusted. -/
theorem C5_add_multiply_wraparound (a b : Int) :
    add a b % 4294967296 = (a + b) % 4294967296 ∧
    -2147483648 ≤ add a b ∧ add a b < 2147483648 ∧
    multiply a b % 4294967296 = (a * b) % 4294967296 ∧
    -2147483648 ≤ multiply a b ∧ multiply a b < 2147483648 :=
  ⟨wrap32_emod _, wrap32_lb _, wrap32_ub _, wrap32_emod _, wrap32_lb _, wrap32_ub _⟩

/-- C3: `apply_op a b (some f)` returns exactly `f a b`; `apply_op a b none`
returns 0 without invoking any callback; the mathlib variant
`apply_operation` always invokes `op`, so on a null `op` it has no defined
result (`none`) — in particular the two variants differ on a null `op`. -/
theorem C3_apply_op_null_guard (a b : Int) (f : Int → Int → Int) :
    apply_op a b (some f) = f a b ∧
    apply_op a b none = 0 ∧
    apply_operation a b (some f) = some (f a b) ∧
    apply_operation a b none = none ∧
    apply_operation a b none ≠ some (apply_op a b none) :=
  ⟨rfl, rfl, rfl, rfl, by simp [apply_operation, apply_op]⟩

/-- C2: `string_copy` returns immediately and writes nothing when `dest` is
null, when `src` is null, or when `max_len = 0`: the destination buffer (when
non-null) is returned exactly as it was. -/
theorem C2_string_copy_guard_noop (d s : List Nat) (os : Option (List Nat)) (m : Nat) :
    string_copy none os m = none ∧
    string_copy (some d) none m = some d ∧
    string_copy (some d) (some s) 0 = some d := by
  refine ⟨rfl, rfl, ?_⟩
  simp [string_copy]

/-- C7: `string_length` returns 0 on a null pointer (explicit guard) and 0 on
the empty string, and in general returns the number of bytes before the first
terminator; `count_chars`, which performs the same terminator scan, has no
null guard: on a null pointer it dereferences and has no defined result
(`none`, in particular not 0). -/
theorem C7_string_length_null_asymmetry :
    string_length none = 0 ∧
    string_length (some [0]) = 0 ∧
    (∀ s : List Nat, string_length (some s) = (s.takeWhile (fun b => b != 0)).length) ∧
    (∀ t : Nat, count_chars none t = none) ∧
    (∀ t : Nat, count_chars none t ≠ some 0) := by
  refine ⟨rfl, rfl, fun s => cstrlen_eq_takeWhile s, fun t => rfl, fun t => by simp [count_chars]⟩

/-- C6: `array_double arr len` with `len = arr.length` replaces every element
by exactly twice its previous value in 32-bit signed wraparound arithmetic,
preserves the length (and, `len` being the whole buffer, touches nothing
outside `arr[0..len-1]`); with `len = 0` it changes nothing; and
`array_double [1, 2, 3] 3 = [2, 4, 6]`. -/
theorem C6_array_double_doubles (arr : List Int) :
    array_double arr arr.length = arr.map (fun x => wrap32 (x * 2)) ∧
    (array_double arr arr.length).length = arr.length ∧
    array_double arr 0 = arr ∧
    array_double [1, 2, 3] 3 = [2, 4, 6] := by
  refine ⟨array_double_map arr, ?_, ?_, ?_⟩
  · rw [array_double_map, List.length_map]
  · rw [array_double, adLoop, dif_neg (by omega)]
  · rw [show (3 : Nat) = ([1, 2, 3] : List Int).length from rfl, array_double_map]
    decide

/-! The two modules define their paired functions by textually identical
bodies; the following lemmas show the embedded loops agree. -/

lemma asLoop_eq_ssLoop (arr : List Int) (len i : Nat) (sum : Int) :
    asLoop arr len i sum = ssLoop arr len i sum := by
  by_cases h : i < len
  · rw [asLoop, dif_pos h, ssLoop, dif_pos h, asLoop_eq_ssLoop]
  · rw [asLoop, dif_neg h, ssLoop, dif_neg h]
termination_by len - i
decreasing_by omega

lemma adLoop_eq_daLoop (arr : List Int) (len i : Nat) :
    adLoop arr len i = daLoop arr len i := by
  by_cases h : i < len
  · rw [adLoop, dif_pos h, daLoop, dif_pos h, adLoop_eq_daLoop]
  · rw [adLoop, dif_neg h, daLoop, dif_neg h]
termination_by len - i
decreasing_by omega

/-- C9: the paired functions of the two modules are extensionally equal:
`add = add_numbers`, `multiply = multiply_numbers`, `array_sum = sum_array`,
`array_double` leaves the buffer exactly as `double_array` does, and
`point_add` on a `Point` has the same component-wise result as `vec2_add`
on the `Vec2` with the same components. -/
theorem C9_modules_extensionally_equal (a b : Int) (arr : List Int) (len : Nat)
    (x1 y1 x2 y2 : Int) :
    add a b = add_numbers a b ∧
    multiply a b = multiply_numbers a b ∧
    array_sum arr len = sum_array arr len ∧
    array_double arr len = double_array arr len ∧
    (point_add ⟨x1, y1⟩ ⟨x2, y2⟩).x = (vec2_add ⟨x1, y1⟩ ⟨x2, y2⟩).x ∧
    (point_add ⟨x1, y1⟩ ⟨x2, y2⟩).y = (vec2_add ⟨x1, y1⟩ ⟨x2, y2⟩).y :=
  ⟨rfl, rfl, asLoop_eq_ssLoop arr len 0 0, adLoop_eq_daLoop arr len 0, rfl, rfl⟩

/-- C4: `factorial n` returns 1 for every `n ≤ 1` (including 0, 1 and all
negative `n`), and for `n ≥ 2` returns the iterative product `2 * 3 * … * n`
computed in 32-bit signed wraparound arithmetic, i.e. the 32-bit wrapped
value of `n!` — never an error; in particular `factorial 5 = 120` and
`factorial 13` is the wrapped value of `13!`. -/
theorem C4_factorial_wrapped (n : Int) :
    (n ≤ 1 → factorial n = 1) ∧
    (2 ≤ n → factorial n = wrap32 ((Nat.factorial n.toNat : Nat) : Int)) := by
  constructor
  · intro h
    rw [factorial, if_pos h]
  · intro h
    rw [factorial, if_neg (by omega), ← wrap32_one, factLoop_wrap, one_mul]
    have hn : (n.toNat : Int) = n := by omega
    have hp := prodFrom_two_factorial n.toNat (by omega)
    rw [hn] at hp
    rw [hp]

/-- Witness for C4 at concrete inputs: a negative input, `factorial 5 = 120`
and the wrapped overflow value `factorial 13 = 1932053504` (`13! mod 2^32`). -/
theorem C4_factorial_wrapped_witness :
    factorial (-5) = 1 ∧ factorial 5 = 120 ∧ factorial 13 = 1932053504 := by
  refine ⟨(C4_factorial_wrapped (-5)).1 (by norm_num), ?_, ?_⟩
  · rw [(C4_factorial_wrapped 5).2 (by norm_num)]
    decide
  · rw [(C4_factorial_wrapped 13).2 (by norm_num)]
    decide

/-- C1: for a non-null destination and null-terminated source and `max_len > 0`,
`string_copy` copies exactly `n = min (max_len - 1) (strlen src)` bytes of the
source — so at most `max_len - 1` — writes the terminator at index `n`, and
changes nothing else: the result is the copied bytes, the terminator, and the
old destination bytes from index `n + 1` on, unchanged; in particular every
byte at an index `≥ max_len` (and any index beyond the written region) keeps
its old value, so at most `max_len` bytes are written in total. -/
theorem C1_string_copy_bounded (d s : List Nat) (m : Nat) (hm : 0 < m)
    (hcap : min (m - 1) (cstrlen s) + 1 ≤ d.length) :
    string_copy (some d) (some s) m =
      some (s.take (min (m - 1) (cstrlen s)) ++ 0 :: d.drop (min (m - 1) (cstrlen s) + 1)) ∧
    ∀ j, m ≤ j →
      (s.take (min (m - 1) (cstrlen s)) ++ 0 :: d.drop (min (m - 1) (cstrlen s) + 1)).getD j 0
        = d.getD j 0 := by
  have hsn : cstrlen s ≤ s.length := cstrlen_le_length s
  have hsnd : (scLoop d s (m - 1) 0).2 = min (m - 1) (cstrlen s) := by
    rw [scLoop_snd d s (m - 1) 0 (Nat.zero_le _), List.drop_zero, Nat.zero_add]
  constructor
  · rw [string_copy_some d s m (by omega), hsnd,
      set_scLoop_eq_take_append d s (m - 1) (min (m - 1) (cstrlen s)) hsnd (by omega) hcap]
  · intro j hj
    exact append_getD_high s d (min (m - 1) (cstrlen s)) j (by omega) (by omega)

/-- Witness for C1: `string_copy(dest, "hello", 3)` on the three-byte buffer
`[1, 1, 1]` writes exactly `'h', 'e', 0` (bytes 104, 101, 0) and nothing else. -/
theorem C1_string_copy_bounded_witness :
    string_copy (some [1, 1, 1]) (some [104, 101, 108, 108, 111, 0]) 3 =
      some [104, 101, 0] :=
  ((C1_string_copy_bounded [1, 1, 1] [104, 101, 108, 108, 111, 0] 3 (by decide)
    (by decide)).1).trans (by decide)

/-- C8: `reverse_string` reverses in place exactly the bytes before the
terminator — the result is the byte-reversal of the terminator-delimited
content followed, unchanged, by the terminator and every byte beyond it;
zero-length and one-byte strings are left unchanged, `"ab"` becomes `"ba"`
and `"abc"` becomes `"cba"` (byte values, terminator 0). -/
theorem C8_reverse_string_reverses (s : List Nat) :
    reverse_string s = (s.take (cstrlen s)).reverse ++ s.drop (cstrlen s) ∧
    reverse_string [0] = [0] ∧
    reverse_string [97, 0] = [97, 0] ∧
    reverse_string [97, 98, 0] = [98, 97, 0] ∧
    reverse_string [97, 98, 99, 0] = [99, 98, 97, 0] := by
  refine ⟨reverse_string_eq s, ?_, ?_, ?_, ?_⟩ <;>
    rw [reverse_string_eq] <;> decide

/-- C10: `reverse_string` is an involution: each application preserves the
terminator-delimited length, and applying it twice restores every byte of
the original buffer. -/
theorem C10_reverse_string_involution (s : List Nat) :
    reverse_string (reverse_string s) = s ∧
    cstrlen (reverse_string s) = cstrlen s := by
  have hA : ∀ x ∈ (s.take (cstrlen s)).reverse, x ≠ 0 := by
    intro x hx
    exact mem_take_cstrlen_ne_zero s x (List.mem_reverse.mp hx)
  have hlen : cstrlen ((s.take (cstrlen s)).reverse ++ s.drop (cstrlen s))
      = (s.take (cstrlen s)).reverse.length :=
    cstrlen_append _ _ hA (drop_cstrlen_head s)
  have h2 : cstrlen (reverse_string s) = cstrlen s := by
    rw [reverse_string_eq s, hlen, List.length_reverse, List.length_take]
    have := cstrlen_le_length s
    omega
  refine ⟨?_, h2⟩
  rw [reverse_string_eq s, reverse_string_eq ((s.take (cstrlen s)).reverse ++ s.drop (cstrlen s)),
    hlen, List.take_left, List.drop_left, List.reverse_reverse, List.take_append_drop]

end CLib
